import Mathlib

/-!
Verification of the schedule-versioning core of `pretalx`
(`src/pretalx/schedule/models/schedule.py`).

The development shallowly embeds:

* the identity triple `(submission, room, start)` of a talk slot and the
  diff/matching algorithm of `Schedule.changes` (symmetric difference,
  room/start candidate pools, `search_nearest_match` /
  `search_nearest_in_room`, the classification loop);
* the version lifecycle `Schedule.freeze` / `Schedule.unfreeze`;
* the `Schedule.warnings` bucket computation.

Database ids (submission, room) and timestamps are modelled as `Nat`.
Python's `list.remove` / `list.index` raise `ValueError` when the element is
absent and `QuerySet.get` raises when several rows match; these fallible
operations are modelled with `Except`, so a run of the diff computation
either returns a change set or the error the Python code would raise.
-/

/-- The identity triple of a placed talk: `(submission, room, start)`.
Corresponds to the namedtuples produced by
`values_list('submission', 'room', 'start', named=True)`. -/
structure Triple where
  submission : Nat
  room : Nat
  start : Nat
deriving DecidableEq, Repr

/-- The comparison key used by `order_by('submission', 'room', 'start')` and by
`sorted(..., key=attrgetter('submission', 'room', 'start'))`: lexicographic on
the triple. -/
def tripleLe (a b : Triple) : Bool :=
  decide (a.submission < b.submission ∨
    (a.submission = b.submission ∧
      (a.room < b.room ∨ (a.room = b.room ∧ a.start ≤ b.start))))

/-- Insert into a list sorted by `tripleLe`. -/
def insertSorted (a : Triple) : List Triple → List Triple
  | [] => [a]
  | b :: l => if tripleLe a b then a :: b :: l else b :: insertSorted a l

/-- Sorting by `(submission, room, start)`; models both the queryset
`order_by` and Python's `sorted`. -/
def sortTriples (l : List Triple) : List Triple :=
  l.foldr insertSorted []

/-- The errors the diff computation can raise: `ValueError` from
`list.remove` / `list.index`, `MultipleObjectsReturned` from `QuerySet.get`,
and the explicit `Exception('slot not found! - uhh - that should never
happen!')`. -/
inductive DiffError
  | valueError
  | multipleObjects
  | slotNotFound
deriving DecidableEq, Repr

/-- One entry of `result['moved_talks']`. -/
structure MoveRecord where
  submission : Nat
  old_start : Nat
  new_start : Nat
  old_room : Nat
  new_room : Nat
deriving DecidableEq, Repr

/-- The `result` dictionary of `Schedule.changes`. -/
structure ChangeSet where
  count : Nat
  action : String
  new_talks : List Triple
  canceled_talks : List Triple
  moved_talks : List MoveRecord
deriving DecidableEq, Repr

/-- The working state of one diff computation: the room/start candidate pool
`slots_helper_symetric_dif__rooms_start`, the room list
`slots_helper_symetric_dif__room`, `slots_helper_already_handled`, and the
three result lists. -/
structure DiffState where
  pool : Nat → List Nat
  rooms : List Nat
  handled : List Triple
  newTalks : List Triple
  canceledTalks : List Triple
  movedTalks : List MoveRecord

/-- Python's `list.remove(x)` / `list.index(x)`: remove the first occurrence,
`none` when absent (where CPython raises `ValueError`). -/
def removeFirst (x : Nat) : List Nat → Option (List Nat)
  | [] => none
  | y :: l =>
    if y = x then some l else (removeFirst x l).map (fun l2 => y :: l2)

/-- `QuerySet.get(submission=…, start=…, room=…)`: the unique row matching the
triple, `none` when absent (`DoesNotExist` is caught in the source), an error
when several rows match (`MultipleObjectsReturned` is not caught). -/
def getUnique (l : List Triple) (x : Triple) : Except DiffError (Option Triple) :=
  match l.filter (fun t => t == x) with
  | [] => .ok none
  | [t] => .ok (some t)
  | _ :: _ :: _ => .error .multipleObjects

/-- `temp_slots` of `search_nearest_in_room`: the other snapshot filtered to
the searched submission and room, restricted to the start times still
available in the room's pool.  `otherQs` is ordered by
`(submission, room, start)`, so within the fixed submission and room the
candidates are ordered by start time. -/
def searchCands (slot : Triple) (otherQs : List Triple) (pool : Nat → List Nat)
    (room : Nat) : List Triple :=
  otherQs.filter (fun t =>
    t.submission == slot.submission && t.room == room &&
      (pool room).contains t.start)

/-- `search_nearest_in_room`: take the first candidate; if its triple is in
the other helper set, consume the slot's and the match's room/start pool
entries and append the match to `already_handled`. -/
def searchNearestInRoom (slot : Triple) (otherQs otherHelper : List Triple)
    (room : Nat) (pool : Nat → List Nat) (handled : List Triple) :
    Except DiffError (Option Triple × (Nat → List Nat) × List Triple) :=
  match searchCands slot otherQs pool room with
  | [] => .ok (none, pool, handled)
  | t :: _ =>
    if t ∈ otherHelper then
      match removeFirst slot.start (pool slot.room) with
      | none => .error .valueError
      | some l1 =>
        match removeFirst t.start (if room = slot.room then l1 else pool room) with
        | none => .error .valueError
        | some l2 =>
          .ok (some t,
            fun r => if r = room then l2 else if r = slot.room then l1 else pool r,
            handled ++ [t])
    else .ok (none, pool, handled)

/-- The `while run` loop of `search_nearest_match`: try the rooms in order,
stopping at the first success; also report in which room the match was
found. -/
def searchRooms (slot : Triple) (otherQs otherHelper : List Triple) :
    List Nat → (Nat → List Nat) → List Triple →
    Except DiffError (Option (Triple × Nat) × (Nat → List Nat) × List Triple)
  | [], pool, handled => .ok (none, pool, handled)
  | r :: rs, pool, handled =>
    match searchNearestInRoom slot otherQs otherHelper r pool handled with
    | .error e => .error e
    | .ok (none, pool1, handled1) => searchRooms slot otherQs otherHelper rs pool1 handled1
    | .ok (some t, pool1, handled1) => .ok (some (t, r), pool1, handled1)

/-- `search_nearest_match`: copy the shared room list, move the slot's own
room to the front (`rooms.pop(rooms.index(slot.room.id))` followed by
`rooms.insert(0, room)`), iterate, and on success remove the slot's room and
the matched room from the shared room list. -/
def searchNearestMatch (slot : Triple) (otherQs otherHelper : List Triple)
    (pool : Nat → List Nat) (rooms : List Nat) (handled : List Triple) :
    Except DiffError (Option Triple × (Nat → List Nat) × List Nat × List Triple) :=
  match removeFirst slot.room rooms with
  | none => .error .valueError
  | some restRooms =>
    match searchRooms slot otherQs otherHelper (slot.room :: restRooms) pool handled with
    | .error e => .error e
    | .ok (none, pool1, handled1) => .ok (none, pool1, rooms, handled1)
    | .ok (some (t, room), pool1, handled1) =>
      match removeFirst slot.room rooms with
      | none => .error .valueError
      | some rooms1 =>
        match removeFirst room rooms1 with
        | none => .error .valueError
        | some rooms2 => .ok (some t, pool1, rooms2, handled1)

/-- The `old_slot and new_slot` / `elif` cascade at the end of one iteration
of the classification loop, including the
`raise Exception('slot not found! …')` branch. -/
def finishClassify (sh : Triple) (oldSlot newSlot : Option Triple)
    (st : DiffState) : Except DiffError DiffState :=
  match oldSlot, newSlot with
  | some o, some n =>
    .ok ⟨st.pool, st.rooms, st.handled ++ [sh], st.newTalks, st.canceledTalks,
      st.movedTalks ++ [⟨n.submission, o.start, n.start, o.room, n.room⟩]⟩
  | some o, none =>
    .ok ⟨st.pool, st.rooms, st.handled ++ [sh], st.newTalks,
      st.canceledTalks ++ [o], st.movedTalks⟩
  | none, some n =>
    .ok ⟨st.pool, st.rooms, st.handled ++ [sh], st.newTalks ++ [n],
      st.canceledTalks, st.movedTalks⟩
  | none, none => .error .slotNotFound

/-- One iteration of the classification loop over a symmetric-difference
entry `sh`: skip if already handled, look the triple up on both sides, search
the other side for a same-submission counterpart, then classify. -/
def classifyStep (oldQs newQs oldHelper newHelper : List Triple) (sh : Triple)
    (st : DiffState) : Except DiffError DiffState :=
  if sh ∈ st.handled then .ok st
  else
    match getUnique oldQs sh with
    | .error e => .error e
    | .ok oldSlot0 =>
      match getUnique newQs sh with
      | .error e => .error e
      | .ok newSlot0 =>
        match newSlot0 with
        | some n =>
          match searchNearestMatch n oldQs oldHelper st.pool st.rooms st.handled with
          | .error e => .error e
          | .ok (oldSlot1, pool1, rooms1, handled1) =>
            finishClassify sh oldSlot1 (some n)
              ⟨pool1, rooms1, handled1, st.newTalks, st.canceledTalks, st.movedTalks⟩
        | none =>
          match oldSlot0 with
          | some o =>
            match searchNearestMatch o newQs newHelper st.pool st.rooms st.handled with
            | .error e => .error e
            | .ok (newSlot1, pool1, rooms1, handled1) =>
              finishClassify sh (some o) newSlot1
                ⟨pool1, rooms1, handled1, st.newTalks, st.canceledTalks, st.movedTalks⟩
          | none => finishClassify sh none none st

/-- The `for slot_helper in slots_helper_symetric_dif` loop. -/
def classifyLoop (oldQs newQs oldHelper newHelper : List Triple) :
    List Triple → DiffState → Except DiffError DiffState
  | [], st => .ok st
  | sh :: rest, st =>
    match classifyStep oldQs newQs oldHelper newHelper sh st with
    | .error e => .error e
    | .ok st1 => classifyLoop oldQs newQs oldHelper newHelper rest st1

/-- The sorted symmetric difference `sorted(new_slots_helper ^
old_slots_helper, key=attrgetter('submission', 'room', 'start'))`.  The
helpers are Python sets, hence the `dedup`. -/
def symdiffList (oldL newL : List Triple) : List Triple :=
  sortTriples
    (newL.dedup.filter (fun t => !(oldL.contains t)) ++
      oldL.dedup.filter (fun t => !(newL.contains t)))

/-- The initial working state built from the sorted symmetric difference:
`slots_helper_symetric_dif__rooms_start` maps each room to the start times of
the difference entries in that room (in list order), and
`slots_helper_symetric_dif__room` lists one room per difference entry. -/
def initState (sd : List Triple) : DiffState :=
  ⟨fun r => (sd.filter (fun t => t.room == r)).map (fun t => t.start),
    sd.map (fun t => t.room), [], [], [], []⟩

/-- The diff computation of `Schedule.changes` after both snapshots have been
filtered down to identity triples: build the sorted symmetric difference and
the candidate pools, run the classification loop, and aggregate counts. -/
def changesTriples (oldL newL : List Triple) : Except DiffError ChangeSet :=
  match classifyLoop (sortTriples oldL) (sortTriples newL) oldL newL
      (symdiffList oldL newL) (initState (symdiffList oldL newL)) with
  | .error e => .error e
  | .ok st =>
    .ok ⟨st.newTalks.length + st.canceledTalks.length + st.movedTalks.length,
      "update", st.newTalks, st.canceledTalks, st.movedTalks⟩

/-- Submission states; the source uses `SubmissionStates.CONFIRMED` and
`SubmissionStates.DELETED`, all other states behave alike here. -/
inductive SubState
  | confirmed
  | deleted
  | other
deriving DecidableEq, Repr

/-- A talk slot with the non-key attributes the lifecycle and warnings code
reads: placement, visibility, submission state, talk-level warning flag and
track. -/
structure TalkSlot where
  submission : Nat
  room : Option Nat
  start : Option Nat
  is_visible : Bool
  state : SubState
  warningsFlag : Bool
  track : Option Nat
deriving DecidableEq, Repr

/-- A schedule version: `version` (the label, absent for work-in-progress),
`published`, and its talk slots. -/
structure Schedule where
  version : Option String
  published : Option Nat
  talks : List TalkSlot
deriving DecidableEq, Repr

/-- Errors raised by `freeze` / `unfreeze` (all are plain `Exception`s in the
source; the spec groups them as `InvalidOperation`). -/
inductive LifeError
  | reservedName
  | alreadyVersioned
  | emptyName
  | notReleased
deriving DecidableEq, Repr

/-- Python truthiness of `self.version` for an optional string field: `None`
and the empty string are falsy. -/
def truthyVersion : Option String → Bool
  | none => false
  | some s => !(s == "")

/-- Whether a submission is confirmed (`submission__state=CONFIRMED`). -/
def stateIsConfirmed : SubState → Bool
  | .confirmed => true
  | _ => false

/-- Rebuild a slot with a given visibility (the `update(is_visible=…)`). -/
def setVisible (t : TalkSlot) (b : Bool) : TalkSlot :=
  ⟨t.submission, t.room, t.start, b, t.state, t.warningsFlag, t.track⟩

/-- First visibility update of `freeze`: slots with a start time and a
confirmed submission that are not visible become visible. -/
def visibilityPass1 (talks : List TalkSlot) : List TalkSlot :=
  talks.map (fun t =>
    if t.start.isSome && stateIsConfirmed t.state && !t.is_visible then
      setVisible t true
    else t)

/-- Second visibility update of `freeze`: visible slots that do not both have
a start time and a confirmed submission are hidden. -/
def visibilityPass2 (talks : List TalkSlot) : List TalkSlot :=
  talks.map (fun t =>
    if t.is_visible && !(t.start.isSome && stateIsConfirmed t.state) then
      setVisible t false
    else t)

/-- `Schedule.freeze(name)`: reject reserved names, an already-versioned
schedule (Python truthiness of `self.version`) and an empty name; otherwise
stamp version/published, recompute visibility, and copy every slot into a
fresh work-in-progress schedule.  Notification, cache invalidation and the
HTML export are external side effects outside this model. -/
def freeze (sched : Schedule) (name : String) (timeNow : Nat) :
    Except LifeError (Schedule × Schedule) :=
  if name == "wip" || name == "latest" then .error .reservedName
  else if truthyVersion sched.version then .error .alreadyVersioned
  else if name == "" then .error .emptyName
  else
    let frozenTalks := visibilityPass2 (visibilityPass1 sched.talks)
    .ok (⟨some name, some timeNow, frozenTalks⟩, ⟨none, none, frozenTalks⟩)

/-- `Schedule.unfreeze()`: require a released version, then copy into a fresh
work-in-progress schedule the union of the current work-in-progress slots
whose submissions this version does not know (talks added since the freeze)
with this version's own slots; the old work-in-progress version is deleted. -/
def unfreeze (sched wip : Schedule) : Except LifeError (Schedule × Schedule) :=
  if !truthyVersion sched.version then .error .notReleased
  else
    let subIds := sched.talks.map (fun t => t.submission)
    let unionTalks :=
      wip.talks.filter (fun t => !(subIds.contains t.submission)) ++ sched.talks
    .ok (sched, ⟨none, none, unionTalks⟩)

/-- The four buckets of `Schedule.warnings`. -/
structure WarningsResult where
  talk_warnings : List TalkSlot
  unscheduled : List TalkSlot
  unconfirmed : List TalkSlot
  no_track : List TalkSlot
deriving DecidableEq, Repr

/-- `Schedule.warnings`: talks without a start time are `unscheduled`,
otherwise talks with warning flags go to `talk_warnings`; independently,
non-confirmed talks go to `unconfirmed` and, when the event uses tracks,
track-less talks go to `no_track`. -/
def warningsOf (talks : List TalkSlot) (useTracks : Bool) : WarningsResult :=
  match talks with
  | [] => ⟨[], [], [], []⟩
  | t :: rest =>
    let w := warningsOf rest useTracks
    ⟨(if !t.start.isSome then [] else if t.warningsFlag then [t] else []) ++ w.talk_warnings,
      (if !t.start.isSome then [t] else []) ++ w.unscheduled,
      (if !(stateIsConfirmed t.state) then [t] else []) ++ w.unconfirmed,
      (if useTracks && !t.track.isSome then [t] else []) ++ w.no_track⟩

/-- The snapshot filter applied to both sides before diffing:
`is_visible=True, room__isnull=False, start__isnull=False` excluding
`submission__state=DELETED`, projected to identity triples. -/
def filterSnapshot (talks : List TalkSlot) : List Triple :=
  talks.filterMap (fun t =>
    match t.room, t.start with
    | some r, some s =>
      if t.is_visible && !(t.state == SubState.deleted) then
        some ⟨t.submission, r, s⟩
      else none
    | _, _ => none)

/-- `Schedule.changes` including the no-previous-schedule case: without a
previous schedule the result is `action='create'` with count 0 and empty
lists; otherwise both snapshots are filtered and diffed. -/
def scheduleChanges (previous : Option (List TalkSlot)) (current : List TalkSlot) :
    Except DiffError ChangeSet :=
  match previous with
  | none => .ok ⟨0, "create", [], [], []⟩
  | some prev => changesTriples (filterSnapshot prev) (filterSnapshot current)

/-- The triples a change set accounts for: the new talks, the canceled talks,
and for each move both its old and its new placement. -/
def movedPair (m : MoveRecord) : List Triple :=
  [⟨m.submission, m.old_room, m.old_start⟩, ⟨m.submission, m.new_room, m.new_start⟩]

/-- Flatten the moved records of a change set into the triples they cover. -/
def flatPairs : List MoveRecord → List Triple
  | [] => []
  | m :: ms => movedPair m ++ flatPairs ms

/-- All triples covered by the three output lists of a change set. -/
def accountedTriples (cs : ChangeSet) : List Triple :=
  cs.new_talks ++ cs.canceled_talks ++ flatPairs cs.moved_talks

/-- The triples covered by the three output lists held in a working state. -/
def stAccounted (st : DiffState) : List Triple :=
  st.newTalks ++ st.canceledTalks ++ flatPairs st.movedTalks

/-- Whether an `Except` is a success. -/
def exceptIsOk : Except DiffError ChangeSet → Bool
  | .ok _ => true
  | .error _ => false

/-- Whether a lifecycle call succeeded. -/
def lifeIsOk : Except LifeError (Schedule × Schedule) → Bool
  | .ok _ => true
  | .error _ => false

/-- The within-room choice rule as claimed by the spec: scan the room's pool
entries in pool order and take the first start time whose triple exists on
the other side. -/
def claimFirstPoolPick (sub room : Nat) (pool : List Nat) (other : List Triple) :
    Option Nat :=
  pool.find? (fun s => other.contains (⟨sub, room, s⟩ : Triple))

/-! ### Order lemmas for the sort key -/

theorem tripleLe_iff (a b : Triple) :
    tripleLe a b = true ↔
      (a.submission < b.submission ∨
        (a.submission = b.submission ∧
          (a.room < b.room ∨ (a.room = b.room ∧ a.start ≤ b.start)))) := by
  simp [tripleLe]

theorem tripleLe_total (a b : Triple) : tripleLe a b = true ∨ tripleLe b a = true := by
  simp only [tripleLe_iff]
  omega

theorem tripleLe_start {a b : Triple} (hs : a.submission = b.submission)
    (hr : a.room = b.room) (h : tripleLe a b = true) : a.start ≤ b.start := by
  rw [tripleLe_iff] at h
  omega

/-! ### Sorting lemmas -/

theorem mem_insertSorted {a t : Triple} : ∀ {l : List Triple},
    (t ∈ insertSorted a l ↔ t = a ∨ t ∈ l)
  | [] => by simp [insertSorted]
  | b :: l => by
    by_cases hle : tripleLe a b = true
    · simp [insertSorted, hle]
    · simp only [insertSorted, if_neg hle, List.mem_cons, mem_insertSorted]
      tauto

theorem insertSorted_perm (a : Triple) : ∀ (l : List Triple),
    (insertSorted a l).Perm (a :: l)
  | [] => List.Perm.refl _
  | b :: l => by
    by_cases hle : tripleLe a b = true
    · simp [insertSorted, hle]
    · simp only [insertSorted, if_neg hle]
      exact ((insertSorted_perm a l).cons b).trans (List.Perm.swap a b l)

theorem sortTriples_perm : ∀ (l : List Triple), (sortTriples l).Perm l
  | [] => List.Perm.refl _
  | a :: l => by
    have h1 : sortTriples (a :: l) = insertSorted a (sortTriples l) := rfl
    rw [h1]
    exact (insertSorted_perm a (sortTriples l)).trans ((sortTriples_perm l).cons a)

theorem mem_sortTriples {t : Triple} {l : List Triple} :
    t ∈ sortTriples l ↔ t ∈ l :=
  (sortTriples_perm l).mem_iff

theorem count_sortTriples (t : Triple) (l : List Triple) :
    (sortTriples l).count t = l.count t :=
  (sortTriples_perm l).count_eq t

theorem pairwise_insertSorted {a : Triple} : ∀ {l : List Triple},
    l.Pairwise (fun x y => tripleLe x y = true) →
    (insertSorted a l).Pairwise (fun x y => tripleLe x y = true)
  | [], _ => by simp [insertSorted]
  | b :: l, h => by
    rcases List.pairwise_cons.mp h with ⟨hb, hl⟩
    by_cases hle : tripleLe a b = true
    · rw [insertSorted, if_pos hle]
      refine List.pairwise_cons.mpr ⟨?_, h⟩
      intro t ht
      rcases List.mem_cons.mp ht with h1 | h1
      · exact h1 ▸ hle
      · exact (tripleLe_iff a t).mpr (by
          have h2 := (tripleLe_iff a b).mp hle
          have h3 := (tripleLe_iff b t).mp (hb t h1)
          omega)
    · have hba : tripleLe b a = true := (tripleLe_total a b).resolve_left hle
      rw [insertSorted, if_neg hle]
      refine List.pairwise_cons.mpr ⟨?_, pairwise_insertSorted hl⟩
      intro t ht
      rcases mem_insertSorted.mp ht with h1 | h1
      · exact h1 ▸ hba
      · exact hb t h1

theorem sortTriples_sorted : ∀ (l : List Triple),
    (sortTriples l).Pairwise (fun x y => tripleLe x y = true)
  | [] => List.Pairwise.nil
  | a :: l => by
    have h1 : sortTriples (a :: l) = insertSorted a (sortTriples l) := rfl
    rw [h1]
    exact pairwise_insertSorted (sortTriples_sorted l)

/-! ### Filter and lookup helpers -/

theorem filter_none {p : Triple → Bool} : ∀ {l : List Triple},
    (∀ t ∈ l, ¬ p t = true) → l.filter p = []
  | [], _ => rfl
  | a :: l, h => by
    have ha : p a = false := Bool.eq_false_iff.mpr (h a (List.mem_cons_self a l))
    simp only [List.filter_cons, ha, Bool.false_eq_true, if_neg]
    exact filter_none (fun t ht => h t (List.mem_cons_of_mem a ht))

theorem filter_eq_single {p : Triple → Bool} {y : Triple} : ∀ {l : List Triple},
    l.Nodup → y ∈ l → p y = true → (∀ t ∈ l, p t = true → t = y) →
    l.filter p = [y]
  | [], _, hy, _, _ => absurd hy (List.not_mem_nil y)
  | a :: l, hnd, hy, hpy, hothers => by
    rcases List.nodup_cons.mp hnd with ⟨hal, hl⟩
    by_cases hay : a = y
    · subst hay
      have h2 : l.filter p = [] := filter_none (fun t ht hp => by
        have := hothers t (List.mem_cons_of_mem a ht) hp
        exact hal (this ▸ ht))
      simp [List.filter_cons, hpy, h2]
    · have hpa : p a = false := by
        cases hpa : p a with
        | true => exact absurd (hothers a (List.mem_cons_self a l) hpa) hay
        | false => rfl
      have hyl : y ∈ l := by
        rcases List.mem_cons.mp hy with h1 | h1
        · exact absurd h1.symm hay
        · exact h1
      simp only [List.filter_cons, hpa, Bool.false_eq_true, if_neg]
      exact filter_eq_single hl hyl hpy
        (fun t ht hp => hothers t (List.mem_cons_of_mem a ht) hp)

theorem getUnique_none {l : List Triple} {x : Triple} (h : x ∉ l) :
    getUnique l x = .ok none := by
  have h2 : l.filter (fun t => t == x) = [] :=
    filter_none (fun t ht hp => h ((beq_iff_eq.mp hp) ▸ ht))
  simp [getUnique, h2]

theorem getUnique_mem_nodup {l : List Triple} {x : Triple} (hnd : l.Nodup)
    (hx : x ∈ l) : getUnique l x = .ok (some x) := by
  have h2 : l.filter (fun t => t == x) = [x] :=
    filter_eq_single hnd hx (beq_self_eq_true x) (fun t _ hp => beq_iff_eq.mp hp)
  simp [getUnique, h2]

theorem getUnique_ok_none {l : List Triple} {x : Triple}
    (h : getUnique l x = .ok none) : x ∉ l := by
  intro hx
  have hmem : x ∈ l.filter (fun t => t == x) :=
    List.mem_filter.mpr ⟨hx, beq_self_eq_true x⟩
  unfold getUnique at h
  rcases hfl : l.filter (fun t => t == x) with _ | ⟨t, _ | _⟩ <;> rw [hfl] at h hmem
  · exact (List.not_mem_nil x) hmem
  · exact Option.noConfusion (Except.ok.inj h)
  · exact Except.noConfusion h

theorem getUnique_ok_some {l : List Triple} {x t : Triple}
    (h : getUnique l x = .ok (some t)) : t = x ∧ t ∈ l := by
  unfold getUnique at h
  rcases hfl : l.filter (fun t2 => t2 == x) with _ | ⟨u, _ | _⟩ <;> rw [hfl] at h
  · exact Option.noConfusion (Except.ok.inj h)
  · have hu : u = t := Option.some.inj (Except.ok.inj h)
    subst hu
    have hmem : u ∈ l.filter (fun t2 => t2 == x) := by rw [hfl]; exact List.mem_cons_self u []
    exact ⟨beq_iff_eq.mp (List.mem_filter.mp hmem).2, (List.mem_filter.mp hmem).1⟩
  · exact Except.noConfusion h

theorem getUnique_error {l : List Triple} {x : Triple} {e : DiffError}
    (h : getUnique l x = .error e) : e = .multipleObjects := by
  unfold getUnique at h
  rcases hfl : l.filter (fun t2 => t2 == x) with _ | ⟨u, _ | _⟩ <;> rw [hfl] at h
  · exact Except.noConfusion h
  · exact Except.noConfusion h
  · exact (Except.error.inj h).symm

/-! ### removeFirst lemmas -/

theorem removeFirst_of_mem {x : Nat} : ∀ {l : List Nat}, x ∈ l →
    ∃ l2, removeFirst x l = some l2
  | [], h => absurd h (List.not_mem_nil x)
  | y :: l, h => by
    by_cases hyx : y = x
    · exact ⟨l, by simp [removeFirst, hyx]⟩
    · have hxl : x ∈ l := by
        rcases List.mem_cons.mp h with h1 | h1
        · exact absurd h1.symm hyx
        · exact h1
      rcases removeFirst_of_mem hxl with ⟨l2, hl2⟩
      exact ⟨y :: l2, by simp [removeFirst, hyx, hl2]⟩

/-! ### Search postconditions -/

theorem searchCands_spec {slot : Triple} {oQ : List Triple} {pool : Nat → List Nat}
    {room : Nat} {t : Triple} (h : t ∈ searchCands slot oQ pool room) :
    t ∈ oQ ∧ t.submission = slot.submission ∧ t.room = room ∧ t.start ∈ pool room := by
  have h2 := List.mem_filter.mp h
  have h3 := h2.2
  simp only [Bool.and_eq_true, beq_iff_eq] at h3
  exact ⟨h2.1, h3.1.1, h3.1.2, by simpa using h3.2⟩

theorem searchNearestInRoom_ok {slot : Triple} {oQ oH : List Triple} {room : Nat}
    {pool : Nat → List Nat} {handled : List Triple} {res : Option Triple}
    {p1 : Nat → List Nat} {h1 : List Triple}
    (h : searchNearestInRoom slot oQ oH room pool handled = .ok (res, p1, h1)) :
    (res = none → p1 = pool ∧ h1 = handled) ∧
    (∀ t, res = some t →
      h1 = handled ++ [t] ∧ t ∈ oQ ∧ t.submission = slot.submission) := by
  unfold searchNearestInRoom at h
  split at h
  · simp only [Except.ok.injEq, Prod.mk.injEq] at h
    obtain ⟨ha, hb, hc2⟩ := h
    subst ha; subst hb; subst hc2
    exact ⟨fun _ => ⟨rfl, rfl⟩, fun t ht => Option.noConfusion ht⟩
  · next t0 rest heq =>
    have ht0 : t0 ∈ searchCands slot oQ pool room := by
      rw [heq]; exact List.mem_cons_self t0 rest
    have ht0s := searchCands_spec ht0
    split at h
    · split at h
      · exact Except.noConfusion h
      · split at h
        · exact Except.noConfusion h
        · simp only [Except.ok.injEq, Prod.mk.injEq] at h
          obtain ⟨ha, hb, hc2⟩ := h
          subst ha; subst hb; subst hc2
          refine ⟨fun hcon => Option.noConfusion hcon, fun t ht => ?_⟩
          have htt0 : t0 = t := Option.some.inj ht
          subst htt0
          exact ⟨rfl, ht0s.1, ht0s.2.1⟩
    · simp only [Except.ok.injEq, Prod.mk.injEq] at h
      obtain ⟨ha, hb, hc2⟩ := h
      subst ha; subst hb; subst hc2
      exact ⟨fun _ => ⟨rfl, rfl⟩, fun t ht => Option.noConfusion ht⟩

theorem searchRooms_ok {slot : Triple} {oQ oH : List Triple} :
    ∀ {rs : List Nat} {pool : Nat → List Nat} {handled : List Triple}
      {res : Option (Triple × Nat)} {p1 : Nat → List Nat} {h1 : List Triple},
    searchRooms slot oQ oH rs pool handled = .ok (res, p1, h1) →
    (res = none → p1 = pool ∧ h1 = handled) ∧
    (∀ t r, res = some (t, r) →
      h1 = handled ++ [t] ∧ t ∈ oQ ∧ t.submission = slot.submission) := by
  intro rs
  induction rs with
  | nil =>
    intro pool handled res p1 h1 h
    simp only [searchRooms, Except.ok.injEq, Prod.mk.injEq] at h
    obtain ⟨ha, hb, hc2⟩ := h
    subst ha; subst hb; subst hc2
    exact ⟨fun _ => ⟨rfl, rfl⟩, fun t r ht => Option.noConfusion ht⟩
  | cons r0 rs ih =>
    intro pool handled res p1 h1 h
    unfold searchRooms at h
    split at h
    · exact Except.noConfusion h
    · next pool1 handled1 heq =>
      have hsame := (searchNearestInRoom_ok heq).1 rfl
      have hrec := ih h
      rw [hsame.1, hsame.2] at hrec
      exact hrec
    · next t0 pool1 handled1 heq =>
      simp only [Except.ok.injEq, Prod.mk.injEq] at h
      obtain ⟨ha, hb, hc2⟩ := h
      subst ha; subst hb; subst hc2
      refine ⟨fun hcon => Option.noConfusion hcon, fun t r ht => ?_⟩
      have h2 := Option.some.inj ht
      have h2a : t0 = t := congrArg Prod.fst h2
      subst h2a
      exact (searchNearestInRoom_ok heq).2 t0 rfl

theorem searchNearestMatch_ok {slot : Triple} {oQ oH : List Triple}
    {pool : Nat → List Nat} {rooms : List Nat} {handled : List Triple}
    {res : Option Triple} {p1 : Nat → List Nat} {r1 : List Nat} {h1 : List Triple}
    (h : searchNearestMatch slot oQ oH pool rooms handled = .ok (res, p1, r1, h1)) :
    (res = none → h1 = handled ∧ r1 = rooms) ∧
    (∀ t, res = some t →
      h1 = handled ++ [t] ∧ t ∈ oQ ∧ t.submission = slot.submission) := by
  unfold searchNearestMatch at h
  split at h
  · exact Except.noConfusion h
  · next restRooms hr0 =>
    split at h
    · exact Except.noConfusion h
    · next pool1 handled1 heq =>
      simp only [Except.ok.injEq, Prod.mk.injEq] at h
      obtain ⟨ha, hb, hc2, hd⟩ := h
      subst ha; subst hb; subst hc2; subst hd
      have hsame := (searchRooms_ok heq).1 rfl
      exact ⟨fun _ => ⟨hsame.2, rfl⟩, fun t ht => Option.noConfusion ht⟩
    · next t0 room0 pool1 handled1 heq =>
      split at h
      · exact Except.noConfusion h
      · split at h
        · exact Except.noConfusion h
        · simp only [Except.ok.injEq, Prod.mk.injEq] at h
          obtain ⟨ha, hb, hc2, hd⟩ := h
          subst ha; subst hb; subst hc2; subst hd
          refine ⟨fun hcon => Option.noConfusion hcon, fun t ht => ?_⟩
          have htt0 : t0 = t := Option.some.inj ht
          subst htt0
          exact (searchRooms_ok heq).2 t0 room0 rfl

/-! ### Error inversions -/

theorem searchNearestInRoom_error {slot : Triple} {oQ oH : List Triple} {room : Nat}
    {pool : Nat → List Nat} {handled : List Triple} {e : DiffError}
    (h : searchNearestInRoom slot oQ oH room pool handled = .error e) :
    e = .valueError := by
  unfold searchNearestInRoom at h
  split at h
  · exact Except.noConfusion h
  · split at h
    · split at h
      · exact (Except.error.inj h).symm
      · split at h
        · exact (Except.error.inj h).symm
        · exact Except.noConfusion h
    · exact Except.noConfusion h

theorem searchRooms_error {slot : Triple} {oQ oH : List Triple} :
    ∀ {rs : List Nat} {pool : Nat → List Nat} {handled : List Triple} {e : DiffError},
    searchRooms slot oQ oH rs pool handled = .error e → e = .valueError := by
  intro rs
  induction rs with
  | nil =>
    intro pool handled e h
    exact Except.noConfusion h
  | cons r0 rs ih =>
    intro pool handled e h
    unfold searchRooms at h
    split at h
    · next e0 heq =>
      have he0 : e0 = e := Except.error.inj h
      exact he0 ▸ searchNearestInRoom_error heq
    · exact ih h
    · exact Except.noConfusion h

theorem searchNearestMatch_error {slot : Triple} {oQ oH : List Triple}
    {pool : Nat → List Nat} {rooms : List Nat} {handled : List Triple} {e : DiffError}
    (h : searchNearestMatch slot oQ oH pool rooms handled = .error e) :
    e = .valueError := by
  unfold searchNearestMatch at h
  split at h
  · exact (Except.error.inj h).symm
  · split at h
    · next e0 heq =>
      have he0 : e0 = e := Except.error.inj h
      exact he0 ▸ searchRooms_error heq
    · exact Except.noConfusion h
    · split at h
      · exact (Except.error.inj h).symm
      · split at h
        · exact (Except.error.inj h).symm
        · exact Except.noConfusion h

theorem finishClassify_error {sh : Triple} {oldSlot newSlot : Option Triple}
    {st : DiffState} {e : DiffError}
    (h : finishClassify sh oldSlot newSlot st = .error e) :
    e = .slotNotFound ∧ oldSlot = none ∧ newSlot = none := by
  cases oldSlot <;> cases newSlot <;> unfold finishClassify at h
  · exact ⟨(Except.error.inj h).symm, rfl, rfl⟩
  · exact Except.noConfusion h
  · exact Except.noConfusion h
  · exact Except.noConfusion h

theorem finishClassify_cases {sh : Triple} {oldSlot newSlot : Option Triple}
    {st st2 : DiffState} (h : finishClassify sh oldSlot newSlot st = .ok st2) :
    st2.pool = st.pool ∧ st2.rooms = st.rooms ∧
    ((∃ o n, oldSlot = some o ∧ newSlot = some n ∧
        st2.handled = st.handled ++ [sh] ∧
        st2.newTalks = st.newTalks ∧ st2.canceledTalks = st.canceledTalks ∧
        st2.movedTalks = st.movedTalks ++ [⟨n.submission, o.start, n.start, o.room, n.room⟩]) ∨
      (∃ o, oldSlot = some o ∧ newSlot = none ∧
        st2.handled = st.handled ++ [sh] ∧
        st2.newTalks = st.newTalks ∧ st2.canceledTalks = st.canceledTalks ++ [o] ∧
        st2.movedTalks = st.movedTalks) ∨
      (∃ n, oldSlot = none ∧ newSlot = some n ∧
        st2.handled = st.handled ++ [sh] ∧
        st2.newTalks = st.newTalks ++ [n] ∧ st2.canceledTalks = st.canceledTalks ∧
        st2.movedTalks = st.movedTalks)) := by
  cases oldSlot with
  | some o =>
    cases newSlot with
    | some n =>
      unfold finishClassify at h
      have h2 := Except.ok.inj h
      subst h2
      exact ⟨rfl, rfl, Or.inl ⟨o, n, rfl, rfl, rfl, rfl, rfl, rfl⟩⟩
    | none =>
      unfold finishClassify at h
      have h2 := Except.ok.inj h
      subst h2
      exact ⟨rfl, rfl, Or.inr (Or.inl ⟨o, rfl, rfl, rfl, rfl, rfl, rfl⟩)⟩
  | none =>
    cases newSlot with
    | some n =>
      unfold finishClassify at h
      have h2 := Except.ok.inj h
      subst h2
      exact ⟨rfl, rfl, Or.inr (Or.inr ⟨n, rfl, rfl, rfl, rfl, rfl, rfl⟩)⟩
    | none => exact Except.noConfusion h

/-! ### Classification loop lemmas -/

theorem classifyStep_snf {oQ nQ oH nH : List Triple} {sh : Triple} {st : DiffState}
    (h : classifyStep oQ nQ oH nH sh st = .error .slotNotFound) :
    sh ∉ oQ ∧ sh ∉ nQ := by
  unfold classifyStep at h
  split at h
  · exact Except.noConfusion h
  · split at h
    · next e heq =>
      have he : e = DiffError.slotNotFound := Except.error.inj h
      have h2 := getUnique_error heq
      rw [he] at h2
      exact DiffError.noConfusion h2
    · next oldSlot0 heqO =>
      split at h
      · next e heq =>
        have he : e = DiffError.slotNotFound := Except.error.inj h
        have h2 := getUnique_error heq
        rw [he] at h2
        exact DiffError.noConfusion h2
      · next newSlot0 heqN =>
        split at h
        · next n =>
          split at h
          · next e heq =>
            have he : e = DiffError.slotNotFound := Except.error.inj h
            have h2 := searchNearestMatch_error heq
            rw [he] at h2
            exact DiffError.noConfusion h2
          · next res pool1 rooms1 handled1 heq =>
            have h2 := (finishClassify_error h).2.2
            exact Option.noConfusion h2
        · split at h
          · next o =>
            split at h
            · next e heq =>
              have he : e = DiffError.slotNotFound := Except.error.inj h
              have h2 := searchNearestMatch_error heq
              rw [he] at h2
              exact DiffError.noConfusion h2
            · next res pool1 rooms1 handled1 heq =>
              have h2 := (finishClassify_error h).2.1
              exact Option.noConfusion h2
          · exact ⟨getUnique_ok_none heqO, getUnique_ok_none heqN⟩

/-- The invariant of the classification loop: every triple in
`already_handled` is covered by one of the three output lists. -/
def InvP (st : DiffState) : Prop := ∀ t ∈ st.handled, t ∈ stAccounted st

theorem flatPairs_append (ms : List MoveRecord) (m : MoveRecord) :
    flatPairs (ms ++ [m]) = flatPairs ms ++ movedPair m := by
  induction ms with
  | nil => simp [flatPairs]
  | cons m0 ms ih => simp [flatPairs, ih]

theorem mem_stAccounted {st : DiffState} {t : Triple} :
    t ∈ stAccounted st ↔
      t ∈ st.newTalks ∨ t ∈ st.canceledTalks ∨ t ∈ flatPairs st.movedTalks := by
  simp [stAccounted, List.mem_append]

theorem classifyStep_inv {oQ nQ oH nH : List Triple} {sh : Triple} {st st2 : DiffState}
    (h : classifyStep oQ nQ oH nH sh st = .ok st2) (hinv : InvP st) :
    InvP st2 ∧ sh ∈ stAccounted st2 ∧
      ∀ u ∈ stAccounted st, u ∈ stAccounted st2 := by
  unfold classifyStep at h
  split at h
  · next hmem =>
    have h2 := Except.ok.inj h
    subst h2
    exact ⟨hinv, hinv sh hmem, fun u hu => hu⟩
  · split at h
    · exact Except.noConfusion h
    · next oldSlot0 heqO =>
      split at h
      · exact Except.noConfusion h
      · next newSlot0 heqN =>
        split at h
        · next n =>
          have hn : n = sh ∧ n ∈ nQ := getUnique_ok_some heqN
          split at h
          · exact Except.noConfusion h
          · next res pool1 rooms1 handled1 heq =>
            have hsnm := searchNearestMatch_ok heq
            rcases finishClassify_cases h with ⟨hp, hr, hcase⟩
            rcases hcase with ⟨o, n2, ho, hn2, hh, hnw, hcn, hmv⟩ |
              ⟨o, ho, hn2, hh, hnw, hcn, hmv⟩ | ⟨n2, ho, hn2, hh, hnw, hcn, hmv⟩
            · -- moved: matched old slot o, new slot n2 = n = sh
              have hn2n : n2 = n := (Option.some.inj hn2).symm
              subst hn2n
              have hosub := (hsnm.2 o ho).2.2
              have hhand : handled1 = st.handled ++ [o] := (hsnm.2 o ho).1
              have hrec1 : (⟨n2.submission, o.room, o.start⟩ : Triple) = o := by
                rw [← hosub]
              have hrec2 : (⟨n2.submission, n2.room, n2.start⟩ : Triple) = n2 := rfl
              have haccm : ∀ u ∈ stAccounted st, u ∈ stAccounted st2 := by
                intro u hu
                rw [mem_stAccounted] at hu
                rw [mem_stAccounted, hnw, hcn, hmv, flatPairs_append]
                rcases hu with hu | hu | hu
                · exact Or.inl hu
                · exact Or.inr (Or.inl hu)
                · exact Or.inr (Or.inr (List.mem_append_left _ hu))
              have hoacc : o ∈ stAccounted st2 := by
                rw [mem_stAccounted, hmv, flatPairs_append]
                refine Or.inr (Or.inr (List.mem_append_right _ ?_))
                rw [movedPair]
                exact hrec1 ▸ List.mem_cons_self _ _
              have hshacc : sh ∈ stAccounted st2 := by
                rw [mem_stAccounted, hmv, flatPairs_append]
                refine Or.inr (Or.inr (List.mem_append_right _ ?_))
                rw [movedPair]
                rw [← hn.1]
                exact List.mem_cons_of_mem _ (hrec2 ▸ List.mem_cons_self _ _)
              refine ⟨?_, hshacc, haccm⟩
              intro u hu
              rw [hh, hhand] at hu
              rcases List.mem_append.mp hu with hu | hu
              · rcases List.mem_append.mp hu with hu | hu
                · exact haccm u (hinv u hu)
                · have : u = o := List.mem_singleton.mp hu
                  exact this ▸ hoacc
              · have : u = sh := List.mem_singleton.mp hu
                exact this ▸ hshacc
            · -- canceled is impossible here: newSlot is some n
              exact Option.noConfusion hn2
            · -- new talk: no match found
              have hn2n : n2 = n := (Option.some.inj hn2).symm
              subst hn2n
              have hhand : handled1 = st.handled := (hsnm.1 ho).1
              have haccm : ∀ u ∈ stAccounted st, u ∈ stAccounted st2 := by
                intro u hu
                rw [mem_stAccounted] at hu
                rw [mem_stAccounted, hnw, hcn, hmv]
                rcases hu with hu | hu | hu
                · exact Or.inl (List.mem_append_left _ hu)
                · exact Or.inr (Or.inl hu)
                · exact Or.inr (Or.inr hu)
              have hshacc : sh ∈ stAccounted st2 := by
                rw [mem_stAccounted, hnw]
                exact Or.inl (List.mem_append_right _ (hn.1 ▸ List.mem_singleton_self n2))
              refine ⟨?_, hshacc, haccm⟩
              intro u hu
              rw [hh, hhand] at hu
              rcases List.mem_append.mp hu with hu | hu
              · exact haccm u (hinv u hu)
              · have : u = sh := List.mem_singleton.mp hu
                exact this ▸ hshacc
        · split at h
          · next o =>
            have ho : o = sh ∧ o ∈ oQ := getUnique_ok_some heqO
            split at h
            · exact Except.noConfusion h
            · next res pool1 rooms1 handled1 heq =>
              have hsnm := searchNearestMatch_ok heq
              rcases finishClassify_cases h with ⟨hp, hr, hcase⟩
              rcases hcase with ⟨o2, n2, ho2, hn2, hh, hnw, hcn, hmv⟩ |
                ⟨o2, ho2, hn2, hh, hnw, hcn, hmv⟩ | ⟨n2, ho2, hn2, hh, hnw, hcn, hmv⟩
              · -- moved: matched new slot n2, old slot o2 = o = sh
                have ho2o : o2 = o := (Option.some.inj ho2).symm
                subst ho2o
                have hnsub := (hsnm.2 n2 hn2).2.2
                have hhand : handled1 = st.handled ++ [n2] := (hsnm.2 n2 hn2).1
                have hrec1 : (⟨n2.submission, o2.room, o2.start⟩ : Triple) = o2 := by
                  rw [hnsub]
                have hrec2 : (⟨n2.submission, n2.room, n2.start⟩ : Triple) = n2 := rfl
                have haccm : ∀ u ∈ stAccounted st, u ∈ stAccounted st2 := by
                  intro u hu
                  rw [mem_stAccounted] at hu
                  rw [mem_stAccounted, hnw, hcn, hmv, flatPairs_append]
                  rcases hu with hu | hu | hu
                  · exact Or.inl hu
                  · exact Or.inr (Or.inl hu)
                  · exact Or.inr (Or.inr (List.mem_append_left _ hu))
                have hnacc : n2 ∈ stAccounted st2 := by
                  rw [mem_stAccounted, hmv, flatPairs_append]
                  refine Or.inr (Or.inr (List.mem_append_right _ ?_))
                  rw [movedPair]
                  exact List.mem_cons_of_mem _ (hrec2 ▸ List.mem_cons_self _ _)
                have hshacc : sh ∈ stAccounted st2 := by
                  rw [mem_stAccounted, hmv, flatPairs_append]
                  refine Or.inr (Or.inr (List.mem_append_right _ ?_))
                  rw [movedPair]
                  rw [← ho.1]
                  exact hrec1 ▸ List.mem_cons_self _ _
                refine ⟨?_, hshacc, haccm⟩
                intro u hu
                rw [hh, hhand] at hu
                rcases List.mem_append.mp hu with hu | hu
                · rcases List.mem_append.mp hu with hu | hu
                  · exact haccm u (hinv u hu)
                  · have : u = n2 := List.mem_singleton.mp hu
                    exact this ▸ hnacc
                · have : u = sh := List.mem_singleton.mp hu
                  exact this ▸ hshacc
              · -- canceled: no match found
                have ho2o : o2 = o := (Option.some.inj ho2).symm
                subst ho2o
                have hhand : handled1 = st.handled := (hsnm.1 hn2).1
                have haccm : ∀ u ∈ stAccounted st, u ∈ stAccounted st2 := by
                  intro u hu
                  rw [mem_stAccounted] at hu
                  rw [mem_stAccounted, hnw, hcn, hmv]
                  rcases hu with hu | hu | hu
                  · exact Or.inl hu
                  · exact Or.inr (Or.inl (List.mem_append_left _ hu))
                  · exact Or.inr (Or.inr hu)
                have hshacc : sh ∈ stAccounted st2 := by
                  rw [mem_stAccounted, hcn]
                  exact Or.inr (Or.inl
                    (List.mem_append_right _ (ho.1 ▸ List.mem_singleton_self o2)))
                refine ⟨?_, hshacc, haccm⟩
                intro u hu
                rw [hh, hhand] at hu
                rcases List.mem_append.mp hu with hu | hu
                · exact haccm u (hinv u hu)
                · have : u = sh := List.mem_singleton.mp hu
                  exact this ▸ hshacc
              · -- new is impossible here: oldSlot is some o
                exact Option.noConfusion ho2
          · exact Except.noConfusion h

theorem classifyLoop_no_snf {oQ nQ oH nH : List Triple} :
    ∀ {l : List Triple} {st : DiffState},
    (∀ sh ∈ l, sh ∈ oQ ∨ sh ∈ nQ) →
    classifyLoop oQ nQ oH nH l st ≠ .error .slotNotFound := by
  intro l
  induction l with
  | nil =>
    intro st _ h
    exact Except.noConfusion h
  | cons sh rest ih =>
    intro st hmem h
    unfold classifyLoop at h
    split at h
    · next e heq =>
      have he : e = DiffError.slotNotFound := Except.error.inj h
      rw [he] at heq
      have h2 := classifyStep_snf heq
      rcases hmem sh (List.mem_cons_self sh rest) with h3 | h3
      · exact h2.1 h3
      · exact h2.2 h3
    · exact ih (fun u hu => hmem u (List.mem_cons_of_mem sh hu)) h

theorem classifyLoop_inv {oQ nQ oH nH : List Triple} :
    ∀ {l : List Triple} {st st2 : DiffState},
    classifyLoop oQ nQ oH nH l st = .ok st2 → InvP st →
    InvP st2 ∧ (∀ sh ∈ l, sh ∈ stAccounted st2) ∧
      ∀ u ∈ stAccounted st, u ∈ stAccounted st2 := by
  intro l
  induction l with
  | nil =>
    intro st st2 h hinv
    have h2 := Except.ok.inj h
    subst h2
    exact ⟨hinv, fun sh hsh => absurd hsh (List.not_mem_nil sh), fun u hu => hu⟩
  | cons sh rest ih =>
    intro st st2 h hinv
    unfold classifyLoop at h
    split at h
    · exact Except.noConfusion h
    · next st1 heq =>
      have hstep := classifyStep_inv heq hinv
      have hrec := ih h hstep.1
      refine ⟨hrec.1, ?_, fun u hu => hrec.2.2 u (hstep.2.2 u hu)⟩
      intro u hu
      rcases List.mem_cons.mp hu with hu | hu
      · exact hu ▸ hrec.2.2 sh hstep.2.1
      · exact hrec.2.1 u hu

/-! ### Claim theorems -/

/-- C1 counterexample data: `old` has submission 2 placed at `(room 1, start
1)`; `new` moves submission 2 twice, adds submission 3 at the very room/start
submission 2 vacated, and adds submission 4 in room 1. -/
def c1old : List Triple := [⟨2, 1, 1⟩]

/-- C1 counterexample: the current snapshot. -/
def c1new : List Triple := [⟨3, 1, 1⟩, ⟨2, 2, 5⟩, ⟨2, 3, 6⟩, ⟨4, 1, 9⟩]

/-- C1 counterexample: the change set the diff computation returns. -/
def c1cs : ChangeSet :=
  ⟨4, "update", [⟨3, 1, 1⟩, ⟨4, 1, 9⟩], [],
    [⟨2, 1, 5, 1, 2⟩, ⟨2, 1, 6, 1, 3⟩]⟩

/-- C1 is falsified as stated: on well-formed snapshots (unique triples on
each side) the computation returns a change set in which the
symmetric-difference triple `(2, 1, 1)` is matched twice — it appears as the
old side of two distinct moved records — so the symmetric difference is not
partitioned into the three lists with each triple accounted exactly once. -/
theorem C1_counterexample :
    c1old.Nodup ∧ c1new.Nodup ∧
    changesTriples c1old c1new = .ok c1cs ∧
    (⟨2, 1, 1⟩ : Triple) ∈ symdiffList c1old c1new ∧
    (accountedTriples c1cs).count ⟨2, 1, 1⟩ = 2 ∧
    c1cs.count = 4 := by
  refine ⟨by decide, by decide, by rfl, by decide, by decide, rfl⟩

/-- C1 amended: `count` always equals `|newTalks| + |canceledTalks| +
|movedTalks|`, and whenever the diff computation returns a change set, every
triple of the sorted symmetric difference appears in at least one of the
three output lists (no triple is dropped); a triple may however be matched
more than once, so the "exactly one" part of the original claim fails. -/
theorem C1_conservation_amended (oldL newL : List Triple) (cs : ChangeSet)
    (h : changesTriples oldL newL = .ok cs) :
    cs.count = cs.new_talks.length + cs.canceled_talks.length + cs.moved_talks.length ∧
    ∀ t ∈ symdiffList oldL newL, t ∈ accountedTriples cs := by
  unfold changesTriples at h
  split at h
  · exact Except.noConfusion h
  · next st heq =>
    have hinv0 : InvP (initState (symdiffList oldL newL)) := by
      intro t ht
      exact absurd ht (List.not_mem_nil t)
    have hloop := classifyLoop_inv heq hinv0
    have h2 := Except.ok.inj h
    subst h2
    refine ⟨rfl, ?_⟩
    intro t ht
    have h3 := hloop.2.1 t ht
    rw [mem_stAccounted] at h3
    simp only [accountedTriples, List.mem_append]
    rcases h3 with h3 | h3 | h3
    · exact Or.inl (Or.inl h3)
    · exact Or.inl (Or.inr h3)
    · exact Or.inr h3

/-- Witness for the amended C1 at a concrete input: a pure addition. -/
theorem C1_conservation_amended_witness :
    changesTriples [] [⟨1, 1, 1⟩] = .ok ⟨1, "update", [⟨1, 1, 1⟩], [], []⟩ ∧
    ((⟨1, "update", [⟨1, 1, 1⟩], [], []⟩ : ChangeSet).count =
        (⟨1, "update", [⟨1, 1, 1⟩], [], []⟩ : ChangeSet).new_talks.length +
        (⟨1, "update", [⟨1, 1, 1⟩], [], []⟩ : ChangeSet).canceled_talks.length +
        (⟨1, "update", [⟨1, 1, 1⟩], [], []⟩ : ChangeSet).moved_talks.length ∧
      ∀ t ∈ symdiffList [] [⟨1, 1, 1⟩],
        t ∈ accountedTriples ⟨1, "update", [⟨1, 1, 1⟩], [], []⟩) :=
  ⟨rfl, C1_conservation_amended [] [⟨1, 1, 1⟩] ⟨1, "update", [⟨1, 1, 1⟩], [], []⟩ rfl⟩

/-- C2: on well-formed snapshots (unique triples within each side) the
classification loop never reaches the "neither an old slot nor a new slot"
case — the computation never returns that error — and whenever one loop
iteration does meet a symmetric-difference entry found on neither side, it
aborts with the `slot not found` error rather than dropping the entry. -/
theorem C2_neither_case (oldL newL : List Triple)
    (hold : oldL.Nodup) (hnew : newL.Nodup) :
    changesTriples oldL newL ≠ .error .slotNotFound ∧
    ∀ (sh : Triple) (st : DiffState), sh ∉ st.handled →
      sh ∉ sortTriples oldL → sh ∉ sortTriples newL →
      classifyStep (sortTriples oldL) (sortTriples newL) oldL newL sh st =
        .error .slotNotFound := by
  constructor
  · intro h
    unfold changesTriples at h
    have hmem : ∀ sh ∈ symdiffList oldL newL,
        sh ∈ sortTriples oldL ∨ sh ∈ sortTriples newL := by
      intro sh hsh
      unfold symdiffList at hsh
      rw [mem_sortTriples, List.mem_append] at hsh
      rcases hsh with hsh | hsh
      · exact Or.inr (mem_sortTriples.mpr (List.mem_dedup.mp (List.mem_filter.mp hsh).1))
      · exact Or.inl (mem_sortTriples.mpr (List.mem_dedup.mp (List.mem_filter.mp hsh).1))
    rcases hres : classifyLoop (sortTriples oldL) (sortTriples newL) oldL newL
        (symdiffList oldL newL) (initState (symdiffList oldL newL)) with e | st <;>
      rw [hres] at h
    · have he : e = DiffError.slotNotFound := Except.error.inj h
      rw [he] at hres
      exact classifyLoop_no_snf hmem hres
    · exact Except.noConfusion h
  · intro sh st hh ho hn
    unfold classifyStep
    rw [if_neg hh, getUnique_none ho, getUnique_none hn]
    rfl

/-- Witness for C2 at concrete snapshots. -/
theorem C2_neither_case_witness :
    ([⟨1, 1, 1⟩] : List Triple).Nodup ∧ ([⟨1, 1, 2⟩] : List Triple).Nodup ∧
    (changesTriples [⟨1, 1, 1⟩] [⟨1, 1, 2⟩] ≠ .error .slotNotFound ∧
      ∀ (sh : Triple) (st : DiffState), sh ∉ st.handled →
        sh ∉ sortTriples [⟨1, 1, 1⟩] → sh ∉ sortTriples [⟨1, 1, 2⟩] →
        classifyStep (sortTriples [⟨1, 1, 1⟩]) (sortTriples [⟨1, 1, 2⟩])
          [⟨1, 1, 1⟩] [⟨1, 1, 2⟩] sh st = .error .slotNotFound) :=
  ⟨by decide, by decide, C2_neither_case [⟨1, 1, 1⟩] [⟨1, 1, 2⟩] (by decide) (by decide)⟩

/-- C5: without a previous schedule, `changes` returns `action='create'`,
count 0 and empty lists, whatever the current snapshot holds. -/
theorem C5_no_previous (current : List TalkSlot) :
    scheduleChanges none current = .ok ⟨0, "create", [], [], []⟩ := rfl

/-- C9: diffing two snapshots with the same set of identity triples yields a
change set with count 0 (and empty lists). -/
theorem C9_identity (oldL newL : List Triple)
    (hsame : ∀ t : Triple, t ∈ oldL ↔ t ∈ newL) :
    changesTriples oldL newL = .ok ⟨0, "update", [], [], []⟩ := by
  have hf1 : newL.dedup.filter (fun t => !(oldL.contains t)) = [] := by
    apply filter_none
    intro t ht
    have h2 : t ∈ oldL := (hsame t).mpr (List.mem_dedup.mp ht)
    simp [h2]
  have hf2 : oldL.dedup.filter (fun t => !(newL.contains t)) = [] := by
    apply filter_none
    intro t ht
    have h2 : t ∈ newL := (hsame t).mp (List.mem_dedup.mp ht)
    simp [h2]
  have hsd : symdiffList oldL newL = [] := by
    unfold symdiffList
    rw [hf1, hf2]
    rfl
  unfold changesTriples
  rw [hsd]
  rfl

/-- Witness for C9 at a concrete snapshot compared with itself. -/
theorem C9_identity_witness :
    changesTriples [⟨1, 2, 3⟩, ⟨4, 5, 6⟩] [⟨1, 2, 3⟩, ⟨4, 5, 6⟩] =
      .ok ⟨0, "update", [], [], []⟩ :=
  C9_identity [⟨1, 2, 3⟩, ⟨4, 5, 6⟩] [⟨1, 2, 3⟩, ⟨4, 5, 6⟩] (fun t => Iff.rfl)

/-- Bridge between `List.contains` and membership for `Nat` lists. -/
theorem contains_nat_iff {l : List Nat} {a : Nat} : l.contains a = true ↔ a ∈ l :=
  List.elem_iff

/-- Boolean negation as an equation. -/
theorem bool_not_true_iff {b : Bool} : (!b) = true ↔ b = false := by
  cases b <;> simp

/-- C6: after a successful `unfreeze`, the new work-in-progress version's
slots are exactly the union of the work-in-progress slots whose submissions
the unfrozen version does not contain with the unfrozen version's own slots;
in particular every talk added after the freeze survives. -/
theorem C6_unfreeze_preserves (sched wip reopened newWip : Schedule)
    (h : unfreeze sched wip = .ok (reopened, newWip)) :
    (∀ t : TalkSlot, t ∈ newWip.talks ↔
      ((t ∈ wip.talks ∧ t.submission ∉ sched.talks.map (fun u => u.submission)) ∨
        t ∈ sched.talks)) ∧
    ∀ t ∈ wip.talks, t.submission ∉ sched.talks.map (fun u => u.submission) →
      t ∈ newWip.talks := by
  unfold unfreeze at h
  split at h
  · exact Except.noConfusion h
  · have h2 := Except.ok.inj h
    have hW : newWip = ⟨none, none,
        wip.talks.filter (fun t =>
          !((sched.talks.map (fun u => u.submission)).contains t.submission)) ++
          sched.talks⟩ :=
      (congrArg Prod.snd h2).symm
    have hmem : ∀ t : TalkSlot, t ∈ newWip.talks ↔
        ((t ∈ wip.talks ∧ t.submission ∉ sched.talks.map (fun u => u.submission)) ∨
          t ∈ sched.talks) := by
      intro t
      rw [hW]
      show t ∈ wip.talks.filter _ ++ sched.talks ↔ _
      rw [List.mem_append, List.mem_filter]
      constructor
      · rintro (⟨hl, hp⟩ | hc)
        · refine Or.inl ⟨hl, fun hcon => ?_⟩
          rw [contains_nat_iff.mpr hcon] at hp
          exact Bool.noConfusion hp
        · exact Or.inr hc
      · rintro (⟨hl, hr⟩ | hc)
        · refine Or.inl ⟨hl, ?_⟩
          rw [bool_not_true_iff]
          cases hcc : (sched.talks.map (fun u => u.submission)).contains t.submission with
          | true => exact absurd (contains_nat_iff.mp hcc) hr
          | false => rfl
        · exact Or.inr hc
    exact ⟨hmem, fun t ht hsub => (hmem t).mpr (Or.inl ⟨ht, hsub⟩)⟩

/-- C6 witness data: the slot frozen in version v1. -/
def c6A : TalkSlot := ⟨1, some 1, some 1, true, .confirmed, false, none⟩

/-- C6 witness data: a talk added to the work-in-progress after the freeze. -/
def c6B : TalkSlot := ⟨9, none, none, false, .other, false, none⟩

/-- C6 witness data: the frozen schedule being unfrozen. -/
def c6sched : Schedule := ⟨some "v1", some 0, [c6A]⟩

/-- C6 witness data: the current work-in-progress schedule. -/
def c6wip : Schedule := ⟨none, none, [c6B, c6A]⟩

/-- Witness for C6 at a concrete pair: `unfreeze` returns a work-in-progress
schedule holding both the post-freeze addition and the frozen slot, and the
post-freeze addition survives. -/
theorem C6_unfreeze_preserves_witness :
    unfreeze c6sched c6wip = .ok (c6sched, ⟨none, none, [c6B, c6A]⟩) ∧
    ∀ t ∈ c6wip.talks, t.submission ∉ c6sched.talks.map (fun u => u.submission) →
      t ∈ (⟨none, none, [c6B, c6A]⟩ : Schedule).talks :=
  ⟨rfl, (C6_unfreeze_preserves c6sched c6wip c6sched ⟨none, none, [c6B, c6A]⟩ rfl).2⟩

/-- C7 counterexample data: a schedule whose version label is the non-null
empty string. -/
def c7sched : Schedule := ⟨some "", none, []⟩

/-- C7 is falsified as stated: with `versionLabel = some ""` (non-null), the
claim says `freeze` must raise (already frozen) and `unfreeze` must succeed
(versionLabel not null); the code tests Python truthiness of the label
instead, so `freeze` succeeds and `unfreeze` raises. -/
theorem C7_counterexample :
    c7sched.version ≠ none ∧
    lifeIsOk (freeze c7sched "v1" 0) = true ∧
    lifeIsOk (unfreeze c7sched ⟨none, none, []⟩) = false :=
  ⟨fun h => Option.noConfusion h, rfl, rfl⟩

/-- C7 amended: `freeze(label)` raises exactly when the label is reserved
("wip"/"latest"), or the label is empty, or the target version's label is
truthy (non-null and non-empty); `unfreeze()` raises exactly when the
version's label is not truthy (null or empty).  The errors are returned to
the caller. -/
theorem C7_invalid_amended (sched : Schedule) (name : String) (tm : Nat)
    (wip : Schedule) :
    (lifeIsOk (freeze sched name tm) = false ↔
      name = "wip" ∨ name = "latest" ∨ name = "" ∨
        truthyVersion sched.version = true) ∧
    (lifeIsOk (unfreeze sched wip) = false ↔
      truthyVersion sched.version = false) := by
  constructor
  · unfold freeze
    split
    · next hc =>
      refine iff_of_true rfl ?_
      cases hw : name == "wip" with
      | true => exact Or.inl (by simpa using hw)
      | false =>
        rw [hw, Bool.false_or] at hc
        exact Or.inr (Or.inl (by simpa using hc))
    · next hc =>
      split
      · next hv =>
        exact iff_of_true rfl (Or.inr (Or.inr (Or.inr hv)))
      · next hv =>
        split
        · next he =>
          exact iff_of_true rfl (Or.inr (Or.inr (Or.inl (by simpa using he))))
        · next he =>
          refine iff_of_false (fun hcon => Bool.noConfusion hcon) ?_
          intro hr
          rcases hr with h2 | h2 | h2 | h2
          · exact hc (by simp [h2])
          · exact hc (by simp [h2])
          · exact he (by simp [h2])
          · exact hv h2
  · unfold unfreeze
    split
    · next hc =>
      exact iff_of_true rfl (bool_not_true_iff.mp hc)
    · next hc =>
      refine iff_of_false (fun hcon => Bool.noConfusion hcon) ?_
      intro hr
      exact hc (bool_not_true_iff.mpr hr)

/-- Every slot after the two visibility updates of `freeze` is visible
exactly when it has a start time and a confirmed submission. -/
theorem visibility_passes (talks : List TalkSlot) :
    ∀ t ∈ visibilityPass2 (visibilityPass1 talks),
      t.is_visible = (t.start.isSome && stateIsConfirmed t.state) := by
  intro t ht
  rw [visibilityPass2, List.mem_map] at ht
  obtain ⟨u, hu, hut⟩ := ht
  rw [visibilityPass1, List.mem_map] at hu
  obtain ⟨v, _, hvu⟩ := hu
  subst hut
  subst hvu
  cases hvi : v.is_visible <;> cases hcf : stateIsConfirmed v.state <;>
    cases hst : v.start.isSome <;>
      simp [setVisible, hvi, hcf, hst]

/-- C8: after a successful freeze, a slot of the frozen version is visible
exactly when it has a start time and its submission is confirmed. -/
theorem C8_freeze_visibility (sched : Schedule) (name : String) (tm : Nat)
    (frozen wip : Schedule) (h : freeze sched name tm = .ok (frozen, wip)) :
    ∀ t ∈ frozen.talks,
      t.is_visible = (t.start.isSome && stateIsConfirmed t.state) := by
  unfold freeze at h
  split at h
  · exact Except.noConfusion h
  · split at h
    · exact Except.noConfusion h
    · split at h
      · exact Except.noConfusion h
      · have h2 := Except.ok.inj h
        have hf : frozen = ⟨some name, some tm,
            visibilityPass2 (visibilityPass1 sched.talks)⟩ :=
          (congrArg Prod.fst h2).symm
        rw [hf]
        exact visibility_passes sched.talks

/-- Witness for C8 at a concrete schedule: the slot of submission 1 was
hidden before the freeze, qualifies, and is visible in the frozen version. -/
theorem C8_freeze_visibility_witness :
    (⟨1, some 1, some 1, true, .confirmed, false, none⟩ : TalkSlot).is_visible =
      ((⟨1, some 1, some 1, true, .confirmed, false, none⟩ : TalkSlot).start.isSome &&
        stateIsConfirmed
          (⟨1, some 1, some 1, true, .confirmed, false, none⟩ : TalkSlot).state) :=
  C8_freeze_visibility
    ⟨none, none,
      [⟨1, some 1, some 1, false, .confirmed, false, none⟩,
       ⟨2, some 1, none, true, .confirmed, false, none⟩,
       ⟨3, some 1, some 2, true, .other, false, none⟩]⟩
    "v1" 7
    ⟨some "v1", some 7,
      visibilityPass2 (visibilityPass1
        [⟨1, some 1, some 1, false, .confirmed, false, none⟩,
         ⟨2, some 1, none, true, .confirmed, false, none⟩,
         ⟨3, some 1, some 2, true, .other, false, none⟩])⟩
    ⟨none, none,
      visibilityPass2 (visibilityPass1
        [⟨1, some 1, some 1, false, .confirmed, false, none⟩,
         ⟨2, some 1, none, true, .confirmed, false, none⟩,
         ⟨3, some 1, some 2, true, .other, false, none⟩])⟩
    rfl
    ⟨1, some 1, some 1, true, .confirmed, false, none⟩ (by decide)

/-- Talks in the `talk_warnings` bucket always have a start time. -/
theorem warnings_tw_isSome {useTracks : Bool} :
    ∀ {talks : List TalkSlot} {t : TalkSlot},
    t ∈ (warningsOf talks useTracks).talk_warnings → t.start.isSome = true := by
  intro talks
  induction talks with
  | nil =>
    intro t ht
    exact absurd ht (List.not_mem_nil t)
  | cons a rest ih =>
    intro t ht
    rw [warningsOf] at ht
    simp only [List.mem_append] at ht
    rcases ht with ht | ht
    · cases hst : a.start.isSome with
      | false => simp [hst] at ht
      | true =>
        cases hw : a.warningsFlag with
        | false => simp [hst, hw] at ht
        | true =>
          simp [hst, hw] at ht
          rw [ht]
          exact hst
    · exact ih ht

/-- Talks without a start time land in the `unscheduled` bucket. -/
theorem warnings_unscheduled {useTracks : Bool} :
    ∀ {talks : List TalkSlot} {t : TalkSlot},
    t ∈ talks → t.start = none → t ∈ (warningsOf talks useTracks).unscheduled := by
  intro talks
  induction talks with
  | nil =>
    intro t ht _
    exact absurd ht (List.not_mem_nil t)
  | cons a rest ih =>
    intro t ht hnone
    rw [warningsOf]
    show t ∈ (if !a.start.isSome then [a] else []) ++
      (warningsOf rest useTracks).unscheduled
    rcases List.mem_cons.mp ht with h1 | h1
    · subst h1
      have hst : t.start.isSome = false := by rw [hnone]; rfl
      rw [hst]
      simp only [Bool.not_false, if_true, ite_true]
      exact List.mem_append_left _ (List.mem_singleton_self t)
    · exact List.mem_append_right _ (ih h1 hnone)

/-- C10: a talk with no start time goes to `unscheduled` and never to
`talk_warnings`, even when its warning flag is set; only talks with a start
time can appear in `talk_warnings`. -/
theorem C10_warnings_buckets (talks : List TalkSlot) (useTracks : Bool)
    (t : TalkSlot) (hmem : t ∈ talks) :
    (t.start = none →
      t ∈ (warningsOf talks useTracks).unscheduled ∧
      t ∉ (warningsOf talks useTracks).talk_warnings) ∧
    (t ∈ (warningsOf talks useTracks).talk_warnings → t.start ≠ none) := by
  constructor
  · intro hnone
    refine ⟨warnings_unscheduled hmem hnone, ?_⟩
    intro hcon
    have h2 := warnings_tw_isSome hcon
    rw [hnone] at h2
    exact Bool.noConfusion h2
  · intro htw hnone
    have h2 := warnings_tw_isSome htw
    rw [hnone] at h2
    exact Bool.noConfusion h2

/-- Witness for C10: an unscheduled talk with its warning flag set. -/
theorem C10_warnings_buckets_witness :
    ((⟨5, none, none, true, .confirmed, true, none⟩ : TalkSlot).start = none →
      (⟨5, none, none, true, .confirmed, true, none⟩ : TalkSlot) ∈
        (warningsOf [⟨5, none, none, true, .confirmed, true, none⟩] true).unscheduled ∧
      (⟨5, none, none, true, .confirmed, true, none⟩ : TalkSlot) ∉
        (warningsOf [⟨5, none, none, true, .confirmed, true, none⟩] true).talk_warnings) ∧
    ((⟨5, none, none, true, .confirmed, true, none⟩ : TalkSlot) ∈
        (warningsOf [⟨5, none, none, true, .confirmed, true, none⟩] true).talk_warnings →
      (⟨5, none, none, true, .confirmed, true, none⟩ : TalkSlot).start ≠ none) :=
  C10_warnings_buckets [⟨5, none, none, true, .confirmed, true, none⟩] true
    ⟨5, none, none, true, .confirmed, true, none⟩ (List.mem_cons_self _ _)

/-! ### C3: the tie-break rule of the nearest-match search -/

/-- C3 counterexample data: previous snapshot.  Submission 1 also keeps two
unchanged placements in room 1 whose start times reappear in the room's pool
through the unrelated difference entries of submissions 2 and 3. -/
def c3old : List Triple := [⟨1, 1, 3⟩, ⟨1, 1, 5⟩, ⟨2, 1, 5⟩, ⟨3, 1, 3⟩]

/-- C3 counterexample data: current snapshot. -/
def c3new : List Triple := [⟨1, 1, 3⟩, ⟨1, 1, 5⟩, ⟨1, 1, 10⟩]

/-- C3 counterexample data: the change set the code returns. -/
def c3cs : ChangeSet :=
  ⟨3, "update", [], [⟨2, 1, 5⟩, ⟨3, 1, 3⟩], [⟨1, 3, 10, 1, 1⟩]⟩

/-- C3 is falsified as stated: searching a counterpart for the new entry
`(1, 1, 10)`, the room pool is `[10, 5, 3]` in sorted-difference order, and
the first pool entry whose triple exists on the previous side is `5`
(`(1, 1, 10)` is absent from previous, `(1, 1, 5)` is present); the code
instead matches start `3` — the first row of the previous-side queryset
ordered by start — as the resulting moved record shows. -/
theorem C3_counterexample :
    changesTriples c3old c3new = .ok c3cs ∧
    symdiffList c3old c3new = [⟨1, 1, 10⟩, ⟨2, 1, 5⟩, ⟨3, 1, 3⟩] ∧
    (initState (symdiffList c3old c3new)).pool 1 = [10, 5, 3] ∧
    claimFirstPoolPick 1 1 [10, 5, 3] c3old = some 5 ∧
    c3cs.moved_talks.map (fun m => m.old_start) = [3] ∧
    (5 : Nat) ≠ 3 :=
  ⟨rfl, rfl, rfl, rfl, rfl, by decide⟩

/-- A successful in-room search returns a candidate that is minimal in start
time among the submission's pool-eligible slots of that room. -/
theorem searchNearestInRoom_min {slot : Triple} {oQ oH : List Triple} {room : Nat}
    {pool : Nat → List Nat} {handled : List Triple} {t : Triple}
    {p1 : Nat → List Nat} {h1 : List Triple}
    (hsorted : oQ.Pairwise (fun x y => tripleLe x y = true))
    (h : searchNearestInRoom slot oQ oH room pool handled = .ok (some t, p1, h1)) :
    t ∈ searchCands slot oQ pool room ∧
    ∀ u ∈ searchCands slot oQ pool room, t.start ≤ u.start := by
  unfold searchNearestInRoom at h
  split at h
  · simp only [Except.ok.injEq, Prod.mk.injEq] at h
    exact absurd h.1 (fun hcon => Option.noConfusion hcon)
  · next t0 rest heq =>
    have ht0 : t0 ∈ searchCands slot oQ pool room := by
      rw [heq]; exact List.mem_cons_self t0 rest
    split at h
    · split at h
      · exact Except.noConfusion h
      · split at h
        · exact Except.noConfusion h
        · simp only [Except.ok.injEq, Prod.mk.injEq] at h
          have htt : t0 = t := Option.some.inj h.1
          subst htt
          refine ⟨ht0, ?_⟩
          have hsc : (searchCands slot oQ pool room).Pairwise
              (fun x y => tripleLe x y = true) :=
            hsorted.sublist (List.filter_sublist oQ)
          rw [heq] at hsc
          intro u hu
          rw [heq] at hu
          rcases List.mem_cons.mp hu with hu | hu
          · rw [hu]
          · have hrel := (List.pairwise_cons.mp hsc).1 u hu
            have humem : u ∈ searchCands slot oQ pool room := by
              rw [heq]; exact List.mem_cons_of_mem t0 hu
            have hus := searchCands_spec humem
            have hts := searchCands_spec ht0
            exact tripleLe_start (by rw [hts.2.1, hus.2.1])
              (by rw [hts.2.2.1, hus.2.2.1]) hrel
    · simp only [Except.ok.injEq, Prod.mk.injEq] at h
      exact absurd h.1 (fun hcon => Option.noConfusion hcon)

/-- A fruitless in-room search means the room has no candidates (given that
every queryset row is in the helper set, as at the call sites). -/
theorem searchNearestInRoom_none {slot : Triple} {oQ oH : List Triple} {room : Nat}
    {pool : Nat → List Nat} {handled : List Triple}
    {p1 : Nat → List Nat} {h1 : List Triple}
    (hhelp : ∀ u ∈ oQ, u ∈ oH)
    (h : searchNearestInRoom slot oQ oH room pool handled = .ok (none, p1, h1)) :
    searchCands slot oQ pool room = [] := by
  unfold searchNearestInRoom at h
  split at h
  · next heq => exact heq
  · next t0 rest heq =>
    have ht0 : t0 ∈ searchCands slot oQ pool room := by
      rw [heq]; exact List.mem_cons_self t0 rest
    have hmem : t0 ∈ oH := hhelp t0 (searchCands_spec ht0).1
    rw [if_pos hmem] at h
    split at h
    · exact Except.noConfusion h
    · split at h
      · exact Except.noConfusion h
      · simp only [Except.ok.injEq, Prod.mk.injEq] at h
        exact absurd h.1 (fun hcon => Option.noConfusion hcon)

/-- The room loop finds its match in the first room of the iteration order
with a non-empty candidate list, and picks that room's minimal-start
candidate. -/
theorem searchRooms_found {slot : Triple} {oQ oH : List Triple}
    (hsorted : oQ.Pairwise (fun x y => tripleLe x y = true))
    (hhelp : ∀ u ∈ oQ, u ∈ oH) :
    ∀ {rs : List Nat} {pool : Nat → List Nat} {handled : List Triple}
      {t : Triple} {r : Nat} {p1 : Nat → List Nat} {h1 : List Triple},
    searchRooms slot oQ oH rs pool handled = .ok (some (t, r), p1, h1) →
    ∃ pre post, rs = pre ++ r :: post ∧
      (∀ r2 ∈ pre, searchCands slot oQ pool r2 = []) ∧
      t ∈ searchCands slot oQ pool r ∧
      ∀ u ∈ searchCands slot oQ pool r, t.start ≤ u.start := by
  intro rs
  induction rs with
  | nil =>
    intro pool handled t r p1 h1 h
    simp only [searchRooms, Except.ok.injEq, Prod.mk.injEq] at h
    exact absurd h.1 (fun hcon => Option.noConfusion hcon)
  | cons r0 rs ih =>
    intro pool handled t r p1 h1 h
    unfold searchRooms at h
    split at h
    · exact Except.noConfusion h
    · next pool1 handled1 heq =>
      have hsame := (searchNearestInRoom_ok heq).1 rfl
      have hnone := searchNearestInRoom_none hhelp heq
      rw [hsame.1, hsame.2] at h
      obtain ⟨pre, post, hsplit, hpre, hmem2, hmin⟩ := ih h
      refine ⟨r0 :: pre, post, by rw [List.cons_append, hsplit], ?_, hmem2, hmin⟩
      intro r2 hr2
      rcases List.mem_cons.mp hr2 with hr2 | hr2
      · exact hr2 ▸ hnone
      · exact hpre r2 hr2
    · next t0 pool1 handled1 heq =>
      simp only [Except.ok.injEq, Prod.mk.injEq] at h
      have h2 := Option.some.inj h.1
      have h2a : t0 = t := congrArg Prod.fst h2
      have h2b : r0 = r := congrArg Prod.snd h2
      subst h2a
      subst h2b
      refine ⟨[], rs, rfl, fun r2 hr2 => absurd hr2 (List.not_mem_nil r2), ?_, ?_⟩
      · exact (searchNearestInRoom_min hsorted heq).1
      · exact (searchNearestInRoom_min hsorted heq).2

/-- C3 amended: the room search order is as claimed — the slot's own room is
moved to the front of the remaining candidate rooms, which keep the order of
the sorted symmetric-difference list, and earlier rooms are only skipped when
they have no candidates — but within a room the slot taken is the other
snapshot's row with the smallest start among same-submission slots whose
start is in the room's pool (the first row of the queryset ordered by
`(submission, room, start)`), not the first pool entry in pool order whose
triple exists on the other side. -/
theorem C3_tiebreak_amended (slot t : Triple) (otherL : List Triple)
    (pool : Nat → List Nat) (rooms r2 : List Nat) (handled h2 : List Triple)
    (p2 : Nat → List Nat)
    (hres : searchNearestMatch slot (sortTriples otherL) otherL pool rooms handled =
      .ok (some t, p2, r2, h2)) :
    ∃ rest r pre post,
      removeFirst slot.room rooms = some rest ∧
      slot.room :: rest = pre ++ r :: post ∧
      (∀ r3 ∈ pre, searchCands slot (sortTriples otherL) pool r3 = []) ∧
      t ∈ searchCands slot (sortTriples otherL) pool r ∧
      ∀ u ∈ searchCands slot (sortTriples otherL) pool r, t.start ≤ u.start := by
  have hsorted := sortTriples_sorted otherL
  have hhelp : ∀ u ∈ sortTriples otherL, u ∈ otherL :=
    fun u hu => mem_sortTriples.mp hu
  unfold searchNearestMatch at hres
  split at hres
  · exact Except.noConfusion hres
  · next restRooms hr0 =>
    split at hres
    · exact Except.noConfusion hres
    · next pool1 handled1 heq =>
      simp only [Except.ok.injEq, Prod.mk.injEq] at hres
      exact absurd hres.1 (fun hcon => Option.noConfusion hcon)
    · next t0 room0 pool1 handled1 heq =>
      split at hres
      · exact Except.noConfusion hres
      · split at hres
        · exact Except.noConfusion hres
        · simp only [Except.ok.injEq, Prod.mk.injEq] at hres
          have htt : t0 = t := Option.some.inj hres.1
          subst htt
          obtain ⟨pre, post, hsplit, hpre, hmem2, hmin⟩ :=
            searchRooms_found hsorted hhelp heq
          exact ⟨restRooms, room0, pre, post, hr0, hsplit, hpre, hmem2, hmin⟩

/-- Witness for the amended C3 at a concrete search: the slot `(1, 1, 5)`
finds its counterpart `(1, 2, 7)` in room 2 after its own room 1 turns up
empty. -/
theorem C3_tiebreak_amended_witness :
    ∃ rest r pre post,
      removeFirst (1 : Nat) [1, 2] = some rest ∧
      (1 : Nat) :: rest = pre ++ r :: post ∧
      (∀ r3 ∈ pre, searchCands ⟨1, 1, 5⟩ (sortTriples [⟨1, 2, 7⟩])
        (fun r4 => if r4 = 2 then [7] else [5]) r3 = []) ∧
      (⟨1, 2, 7⟩ : Triple) ∈ searchCands ⟨1, 1, 5⟩ (sortTriples [⟨1, 2, 7⟩])
        (fun r4 => if r4 = 2 then [7] else [5]) r ∧
      ∀ u ∈ searchCands ⟨1, 1, 5⟩ (sortTriples [⟨1, 2, 7⟩])
        (fun r4 => if r4 = 2 then [7] else [5]) r,
        (⟨1, 2, 7⟩ : Triple).start ≤ u.start :=
  C3_tiebreak_amended ⟨1, 1, 5⟩ ⟨1, 2, 7⟩ [⟨1, 2, 7⟩]
    (fun r4 => if r4 = 2 then [7] else [5]) [1, 2] _ [] _ _ rfl

/-! ### C4: a simple move yields exactly one moved record -/

/-- Triples are determined by their three fields. -/
theorem tripleExt {a b : Triple} (hs : a.submission = b.submission)
    (hr : a.room = b.room) (hst : a.start = b.start) : a = b := by
  cases a
  cases b
  simp only [Triple.mk.injEq]
  exact ⟨hs, hr, hst⟩

/-- Bridge between `List.contains` and membership for `Triple` lists. -/
theorem contains_triple_iff {l : List Triple} {a : Triple} :
    l.contains a = true ↔ a ∈ l :=
  List.elem_iff

/-- Sorting preserves duplicate-freeness. -/
theorem nodup_sortTriples {l : List Triple} (h : l.Nodup) : (sortTriples l).Nodup :=
  ((sortTriples_perm l).nodup_iff).mpr h

/-- Running `search_nearest_match` for one side `e1` of a two-entry symmetric
difference `[e1, e2]` of same-submission entries finds exactly the opposite
entry `e2`, drains both pool entries and both room-list entries, and marks
`e2` handled. -/
theorem search2 (e1 e2 : Triple) (otherL : List Triple) (pool : Nat → List Nat)
    (hsub : e1.submission = e2.submission) (hne : e1 ≠ e2)
    (h2mem : e2 ∈ otherL) (h1mem : e1 ∉ otherL) (hnd : otherL.Nodup)
    (hp1 : pool e1.room = if e2.room = e1.room then [e1.start, e2.start] else [e1.start])
    (hp2 : pool e2.room = if e2.room = e1.room then [e1.start, e2.start] else [e2.start]) :
    ∃ p2, searchNearestMatch e1 (sortTriples otherL) otherL pool
        [e1.room, e2.room] [] =
      .ok (some e2, p2, [], [e2]) := by
  have hndq : (sortTriples otherL).Nodup := nodup_sortTriples hnd
  have h2q : e2 ∈ sortTriples otherL := mem_sortTriples.mpr h2mem
  have hremove0 : removeFirst e1.room [e1.room, e2.room] = some [e2.room] := by
    simp [removeFirst]
  by_cases hrr : e2.room = e1.room
  · -- both entries share one room
    have hcands1 : searchCands e1 (sortTriples otherL) pool e1.room = [e2] := by
      unfold searchCands
      apply filter_eq_single hndq h2q
      · simp only [Bool.and_eq_true, beq_iff_eq]
        refine ⟨⟨hsub.symm, hrr⟩, ?_⟩
        rw [hp1, if_pos hrr]
        simp
      · intro t ht hp
        simp only [Bool.and_eq_true, beq_iff_eq] at hp
        obtain ⟨⟨hps, hpr⟩, hpc⟩ := hp
        rw [hp1, if_pos hrr] at hpc
        have hpc2 : t.start ∈ [e1.start, e2.start] := contains_nat_iff.mp hpc
        rcases List.mem_cons.mp hpc2 with hs1 | hs2
        · exfalso
          have ht1 : t = e1 := tripleExt hps hpr hs1
          exact h1mem (ht1 ▸ mem_sortTriples.mp ht)
        · have hs2b : t.start = e2.start := List.mem_singleton.mp hs2
          exact tripleExt (hps.trans hsub) (hpr.trans hrr.symm) hs2b
    have hrf1 : removeFirst e1.start (pool e1.room) = some [e2.start] := by
      rw [hp1, if_pos hrr]
      simp [removeFirst]
    have hrf2 : removeFirst e2.start [e2.start] = some [] := by
      simp [removeFirst]
    have hremove1 : removeFirst e1.room [e2.room] = some [] := by
      simp [removeFirst, hrr]
    refine ⟨fun r => if r = e1.room then [] else
      if r = e1.room then [e2.start] else pool r, ?_⟩
    simp only [searchNearestMatch, searchRooms, searchNearestInRoom, hremove0,
      hcands1, h2mem, if_true, hrf1, hrf2, hremove1, List.nil_append]
  · -- the entries sit in different rooms
    have hp1b : pool e1.room = [e1.start] := by rw [hp1, if_neg hrr]
    have hp2b : pool e2.room = [e2.start] := by rw [hp2, if_neg hrr]
    have hcandsE : searchCands e1 (sortTriples otherL) pool e1.room = [] := by
      unfold searchCands
      apply filter_none
      intro t ht hp
      simp only [Bool.and_eq_true, beq_iff_eq] at hp
      obtain ⟨⟨hps, hpr⟩, hpc⟩ := hp
      rw [hp1b] at hpc
      have hpc2 : t.start = e1.start :=
        List.mem_singleton.mp (contains_nat_iff.mp hpc)
      have ht1 : t = e1 := tripleExt hps hpr hpc2
      exact h1mem (ht1 ▸ mem_sortTriples.mp ht)
    have hcands2 : searchCands e1 (sortTriples otherL) pool e2.room = [e2] := by
      unfold searchCands
      apply filter_eq_single hndq h2q
      · simp only [Bool.and_eq_true, beq_iff_eq]
        refine ⟨⟨hsub.symm, trivial⟩, ?_⟩
        rw [hp2b]
        simp
      · intro t ht hp
        simp only [Bool.and_eq_true, beq_iff_eq] at hp
        obtain ⟨⟨hps, hpr⟩, hpc⟩ := hp
        rw [hp2b] at hpc
        have hpc2 : t.start = e2.start :=
          List.mem_singleton.mp (contains_nat_iff.mp hpc)
        exact tripleExt (hps.trans hsub) hpr hpc2
    have hrf1 : removeFirst e1.start (pool e1.room) = some [] := by
      rw [hp1b]
      simp [removeFirst]
    have hrf2 : removeFirst e2.start
        (if e2.room = e1.room then [] else pool e2.room) = some [] := by
      rw [if_neg hrr, hp2b]
      simp [removeFirst]
    have hremove2 : removeFirst e2.room [e2.room] = some [] := by
      simp [removeFirst]
    refine ⟨fun r => if r = e2.room then [] else
      if r = e1.room then [] else pool r, ?_⟩
    simp only [searchNearestMatch, searchRooms, searchNearestInRoom, hremove0,
      hcandsE, hcands2, h2mem, if_true, hrf1, hrf2, hremove2, List.nil_append]

/-- Classifying a two-entry symmetric difference whose first entry is on the
new side: one loop run produces exactly one moved record pairing the two
entries. -/
theorem classify2_move_new_first (oldL newL : List Triple) (e1 e2 : Triple)
    (hsub : e1.submission = e2.submission) (hne : e1 ≠ e2)
    (h1n : e1 ∈ newL) (h1o : e1 ∉ oldL) (h2o : e2 ∈ oldL) (h2n : e2 ∉ newL)
    (hndo : oldL.Nodup) (hndn : newL.Nodup) :
    ∃ st : DiffState,
      classifyLoop (sortTriples oldL) (sortTriples newL) oldL newL [e1, e2]
        (initState [e1, e2]) = .ok st ∧
      st.newTalks = [] ∧ st.canceledTalks = [] ∧
      st.movedTalks = [⟨e1.submission, e2.start, e1.start, e2.room, e1.room⟩] := by
  have hinit : initState [e1, e2] =
      ⟨fun r => ([e1, e2].filter (fun t => t.room == r)).map (fun t => t.start),
        [e1.room, e2.room], [], [], [], []⟩ := rfl
  have hp1 : (fun r => ([e1, e2].filter (fun t => t.room == r)).map
        (fun t => t.start)) e1.room =
      if e2.room = e1.room then [e1.start, e2.start] else [e1.start] := by
    by_cases hrr : e2.room = e1.room
    · simp [hrr]
    · simp [hrr]
  have hp2 : (fun r => ([e1, e2].filter (fun t => t.room == r)).map
        (fun t => t.start)) e2.room =
      if e2.room = e1.room then [e1.start, e2.start] else [e2.start] := by
    by_cases hrr : e2.room = e1.room
    · simp [hrr]
    · have hrr2 : ¬(e1.room = e2.room) := fun h => hrr h.symm
      simp [hrr, hrr2]
  obtain ⟨p2, hsearch⟩ := search2 e1 e2 oldL
    (fun r => ([e1, e2].filter (fun t => t.room == r)).map (fun t => t.start))
    hsub hne h2o h1o hndo hp1 hp2
  have hg1 : getUnique (sortTriples oldL) e1 = .ok none :=
    getUnique_none (fun hc => h1o (mem_sortTriples.mp hc))
  have hg2 : getUnique (sortTriples newL) e1 = .ok (some e1) :=
    getUnique_mem_nodup (nodup_sortTriples hndn) (mem_sortTriples.mpr h1n)
  have hnil : (e1 ∈ ([] : List Triple)) = False := eq_false (List.not_mem_nil e1)
  have hstep : classifyStep (sortTriples oldL) (sortTriples newL) oldL newL e1
      (initState [e1, e2]) =
      .ok ⟨p2, [], [e2, e1], [], [],
        [⟨e1.submission, e2.start, e1.start, e2.room, e1.room⟩]⟩ := by
    rw [hinit]
    unfold classifyStep
    simp only [hnil, if_false, ite_false, hg1, hg2, hsearch, finishClassify,
      List.nil_append, List.cons_append]
  have hmem2 : (e2 ∈ [e2, e1]) = True := eq_true (List.mem_cons_self e2 [e1])
  have hskip : classifyStep (sortTriples oldL) (sortTriples newL) oldL newL e2
      ⟨p2, [], [e2, e1], [], [],
        [⟨e1.submission, e2.start, e1.start, e2.room, e1.room⟩]⟩ =
      .ok ⟨p2, [], [e2, e1], [], [],
        [⟨e1.submission, e2.start, e1.start, e2.room, e1.room⟩]⟩ := by
    unfold classifyStep
    simp only [hmem2, if_true, ite_true]
  refine ⟨⟨p2, [], [e2, e1], [], [],
    [⟨e1.submission, e2.start, e1.start, e2.room, e1.room⟩]⟩, ?_, rfl, rfl, rfl⟩
  simp only [classifyLoop, hstep, hskip]

/-- Classifying a two-entry symmetric difference whose first entry is on the
old side: one loop run produces exactly one moved record pairing the two
entries. -/
theorem classify2_move_old_first (oldL newL : List Triple) (e1 e2 : Triple)
    (hsub : e1.submission = e2.submission) (hne : e1 ≠ e2)
    (h1o : e1 ∈ oldL) (h1n : e1 ∉ newL) (h2n : e2 ∈ newL) (h2o : e2 ∉ oldL)
    (hndo : oldL.Nodup) (hndn : newL.Nodup) :
    ∃ st : DiffState,
      classifyLoop (sortTriples oldL) (sortTriples newL) oldL newL [e1, e2]
        (initState [e1, e2]) = .ok st ∧
      st.newTalks = [] ∧ st.canceledTalks = [] ∧
      st.movedTalks = [⟨e2.submission, e1.start, e2.start, e1.room, e2.room⟩] := by
  have hinit : initState [e1, e2] =
      ⟨fun r => ([e1, e2].filter (fun t => t.room == r)).map (fun t => t.start),
        [e1.room, e2.room], [], [], [], []⟩ := rfl
  have hp1 : (fun r => ([e1, e2].filter (fun t => t.room == r)).map
        (fun t => t.start)) e1.room =
      if e2.room = e1.room then [e1.start, e2.start] else [e1.start] := by
    by_cases hrr : e2.room = e1.room
    · simp [hrr]
    · simp [hrr]
  have hp2 : (fun r => ([e1, e2].filter (fun t => t.room == r)).map
        (fun t => t.start)) e2.room =
      if e2.room = e1.room then [e1.start, e2.start] else [e2.start] := by
    by_cases hrr : e2.room = e1.room
    · simp [hrr]
    · have hrr2 : ¬(e1.room = e2.room) := fun h => hrr h.symm
      simp [hrr, hrr2]
  obtain ⟨p2, hsearch⟩ := search2 e1 e2 newL
    (fun r => ([e1, e2].filter (fun t => t.room == r)).map (fun t => t.start))
    hsub hne h2n h1n hndn hp1 hp2
  have hg1 : getUnique (sortTriples oldL) e1 = .ok (some e1) :=
    getUnique_mem_nodup (nodup_sortTriples hndo) (mem_sortTriples.mpr h1o)
  have hg2 : getUnique (sortTriples newL) e1 = .ok none :=
    getUnique_none (fun hc => h1n (mem_sortTriples.mp hc))
  have hnil : (e1 ∈ ([] : List Triple)) = False := eq_false (List.not_mem_nil e1)
  have hstep : classifyStep (sortTriples oldL) (sortTriples newL) oldL newL e1
      (initState [e1, e2]) =
      .ok ⟨p2, [], [e2, e1], [], [],
        [⟨e2.submission, e1.start, e2.start, e1.room, e2.room⟩]⟩ := by
    rw [hinit]
    unfold classifyStep
    simp only [hnil, if_false, ite_false, hg1, hg2, hsearch, finishClassify,
      List.nil_append, List.cons_append]
  have hmem2 : (e2 ∈ [e2, e1]) = True := eq_true (List.mem_cons_self e2 [e1])
  have hskip : classifyStep (sortTriples oldL) (sortTriples newL) oldL newL e2
      ⟨p2, [], [e2, e1], [], [],
        [⟨e2.submission, e1.start, e2.start, e1.room, e2.room⟩]⟩ =
      .ok ⟨p2, [], [e2, e1], [], [],
        [⟨e2.submission, e1.start, e2.start, e1.room, e2.room⟩]⟩ := by
    unfold classifyStep
    simp only [hmem2, if_true, ite_true]
  refine ⟨⟨p2, [], [e2, e1], [], [],
    [⟨e2.submission, e1.start, e2.start, e1.room, e2.room⟩]⟩, ?_, rfl, rfl, rfl⟩
  simp only [classifyLoop, hstep, hskip]

/-- C4: when the previous snapshot has submission `A` at `(R1, T1)`, the
current one has `A` at `(R2, T2)` with a different room or start, and the
snapshots otherwise agree, the diff returns exactly one moved record for `A`
and no new or canceled talks. -/
theorem C4_simple_move (oldL newL : List Triple) (x y : Triple)
    (hxo : x ∈ oldL) (hxn : x ∉ newL) (hyn : y ∈ newL) (hyo : y ∉ oldL)
    (hsub : x.submission = y.submission)
    (hdiff : x.room ≠ y.room ∨ x.start ≠ y.start)
    (hrest1 : ∀ t ∈ oldL, t ≠ x → t ∈ newL)
    (hrest2 : ∀ t ∈ newL, t ≠ y → t ∈ oldL)
    (hndo : oldL.Nodup) (hndn : newL.Nodup) :
    changesTriples oldL newL =
      .ok ⟨1, "update", [], [], [⟨x.submission, x.start, y.start, x.room, y.room⟩]⟩ := by
  have hxy : x ≠ y := fun he => hxn (he ▸ hyn)
  have hfn : newL.dedup.filter (fun t => !(oldL.contains t)) = [y] := by
    rw [List.dedup_eq_self.mpr hndn]
    apply filter_eq_single hndn hyn
    · rw [bool_not_true_iff]
      cases hcc : oldL.contains y with
      | true => exact absurd (contains_triple_iff.mp hcc) hyo
      | false => rfl
    · intro t ht hp
      by_contra hty
      have h2 : t ∈ oldL := hrest2 t ht hty
      rw [contains_triple_iff.mpr h2] at hp
      exact Bool.noConfusion hp
  have hfo : oldL.dedup.filter (fun t => !(newL.contains t)) = [x] := by
    rw [List.dedup_eq_self.mpr hndo]
    apply filter_eq_single hndo hxo
    · rw [bool_not_true_iff]
      cases hcc : newL.contains x with
      | true => exact absurd (contains_triple_iff.mp hcc) hxn
      | false => rfl
    · intro t ht hp
      by_contra htx
      have h2 : t ∈ newL := hrest1 t ht htx
      rw [contains_triple_iff.mpr h2] at hp
      exact Bool.noConfusion hp
  rw [hsub]
  cases hle : tripleLe y x with
  | true =>
    have hsd : symdiffList oldL newL = [y, x] := by
      unfold symdiffList
      rw [hfn, hfo]
      show sortTriples [y, x] = [y, x]
      simp [sortTriples, insertSorted, hle]
    obtain ⟨st, hloop, hN, hC, hM⟩ := classify2_move_new_first oldL newL y x
      hsub.symm (Ne.symm hxy) hyn hyo hxo hxn hndo hndn
    unfold changesTriples
    rw [hsd]
    simp only [hloop, hN, hC, hM]
    rfl
  | false =>
    have hsd : symdiffList oldL newL = [x, y] := by
      unfold symdiffList
      rw [hfn, hfo]
      show sortTriples [y, x] = [x, y]
      simp [sortTriples, insertSorted, hle]
    obtain ⟨st, hloop, hN, hC, hM⟩ := classify2_move_old_first oldL newL x y
      hsub hxy hxo hxn hyn hyo hndo hndn
    unfold changesTriples
    rw [hsd]
    simp only [hloop, hN, hC, hM]
    rfl

/-- Witness for C4 at concrete snapshots: submission 1 moves from room 1
start 1 to room 2 start 2 while submission 5 stays put. -/
theorem C4_simple_move_witness :
    changesTriples [⟨1, 1, 1⟩, ⟨5, 5, 5⟩] [⟨1, 2, 2⟩, ⟨5, 5, 5⟩] =
      .ok ⟨1, "update", [], [], [⟨1, 1, 2, 1, 2⟩]⟩ :=
  C4_simple_move [⟨1, 1, 1⟩, ⟨5, 5, 5⟩] [⟨1, 2, 2⟩, ⟨5, 5, 5⟩] ⟨1, 1, 1⟩ ⟨1, 2, 2⟩
    (by decide) (by decide) (by decide) (by decide) (by decide) (by decide)
    (by decide) (by decide) (by decide) (by decide)
